import Mathlib

/-!
# Verification of the Zenith hub task / shopping-list core

Shallow embedding of the recurring-task lifecycle and ordering engine of
`src/ProductivityScreen.tsx` and the shopping-list pricing operations of
`src/SupermarketScreen.tsx`, together with proofs of the specification
claims about them.

JavaScript `Date` values at a fixed time of day are modelled by their civil
calendar triple `(year, month, day)` together with the epoch day number
(the count of days since 1970-01-01, which is the JS timestamp divided by
86400000 when the time-of-day is fixed).  JS numbers in the shopping list
are modelled by `ℚ` (exact at every value the claims mention).  Fallible
steps (date-string parsing, the external text-generation call) are
modelled with `Option`.
-/

namespace Zenith

/-! ## Calendar arithmetic (model of the ECMAScript Date internals)

`daysFromCivil` / `civilFromDays` convert between a Gregorian civil date
and the epoch day number, following the standard era-based algorithm.
ECMAScript's `MakeDay(y, m, d)` equals `daysFromCivil` applied to the
normalised month together with an arbitrary (possibly out-of-range) day
count, which is exactly how the `Date.setDate` / `setMonth` /
`setFullYear` mutations below are modelled. -/

/-- Gregorian leap year. -/
def isLeap (y : Int) : Bool :=
  (y % 4 == 0 && y % 100 != 0) || y % 400 == 0

/-- Number of days in a month (`m` is 1-based). -/
def daysInMonth (y m : Int) : Int :=
  if m = 2 then (if isLeap y then 29 else 28)
  else if m = 4 ∨ m = 6 ∨ m = 9 ∨ m = 11 then 30
  else 31

/-- Epoch day number of the civil date `(y, m, d)`; `m` is 1-based and `d`
may lie outside `[1, daysInMonth y m]`, in which case the result denotes
the correspondingly overflowed day (as ECMAScript `MakeDay` does). -/
def daysFromCivil (y m d : Int) : Int :=
  let yy := if m ≤ 2 then y - 1 else y
  let era := yy.fdiv 400
  let yoe := yy - era * 400
  let mp := (m + 9).emod 12
  let doy := (153 * mp + 2).fdiv 5 + d - 1
  let doe := yoe * 365 + yoe.fdiv 4 - yoe.fdiv 100 + doy
  era * 146097 + doe - 719468

/-- Civil date `(y, m, d)` of an epoch day number (inverse of
`daysFromCivil` on valid dates). -/
def civilFromDays (z0 : Int) : Int × Int × Int :=
  let z := z0 + 719468
  let era := z.fdiv 146097
  let doe := z - era * 146097
  let yoe := (doe - doe.fdiv 1460 + doe.fdiv 36524 - doe.fdiv 146096).fdiv 365
  let y := yoe + era * 400
  let doy := doe - (365 * yoe + yoe.fdiv 4 - yoe.fdiv 100)
  let mp := (5 * doy + 2).fdiv 153
  let d := doy - (153 * mp + 2).fdiv 5 + 1
  let m := if mp < 10 then mp + 3 else mp - 9
  (if m ≤ 2 then y + 1 else y, m, d)

/-- `(y, m, d)` is a real calendar date. -/
def ValidDate (y m d : Int) : Prop :=
  1 ≤ m ∧ m ≤ 12 ∧ 1 ≤ d ∧ d ≤ daysInMonth y m

instance (y m d : Int) : Decidable (ValidDate y m d) := by
  unfold ValidDate; infer_instance

/-! ## Date strings -/

/-- Split a character list at every `'-'` (the semantics of
`String.splitOn "-"` on the string's character data; reimplemented
structurally so that concrete dates evaluate inside the kernel). -/
def splitDash : List Char → List (List Char)
  | [] => [[]]
  | c :: rest =>
    if c = '-' then [] :: splitDash rest
    else
      match splitDash rest with
      | g :: gs => (c :: g) :: gs
      | [] => [[c]]

/-- Parse a run of decimal digits (the semantics of `String.toNat?`). -/
def digitsToNat? : List Char → Option Nat
  | [] => none
  | cs => go cs 0
where
  go : List Char → Nat → Option Nat
    | [], acc => some acc
    | c :: rest, acc =>
      if c.isDigit then go rest (acc * 10 + (c.toNat - '0'.toNat)) else none

/-- Parse a `YYYY-MM-DD` string.  Mirrors `new Date(s + "T12:00:00")`:
the ECMAScript date-time string format requires a four-digit year and
two-digit, zero-padded month and day, and an out-of-range component (e.g.
`"2024-02-30"`) yields an Invalid Date, modelled here by `none`. -/
def parseDate (s : String) : Option (Int × Int × Int) :=
  match splitDash s.data with
  | [ys, ms, ds] =>
    if ys.length = 4 ∧ ms.length = 2 ∧ ds.length = 2 then
      match digitsToNat? ys, digitsToNat? ms, digitsToNat? ds with
      | some y, some m, some d =>
        if ValidDate y m d then some ((y : Int), (m : Int), (d : Int)) else none
      | _, _, _ => none
    else none
  | _ => none

/-- `String(n).padStart(2, "0")`. -/
def pad2 (n : Int) : String :=
  let s := toString n
  if s.length < 2 then "0" ++ s else s

/-- The manual `${year}-${month}-${day}` serialisation from
`calculateNextDueDate` (zero-padded month and day, no UTC conversion). -/
def formatDate : Int × Int × Int → String
  | (y, m, d) => toString y ++ "-" ++ pad2 m ++ "-" ++ pad2 d

/-! ## The recurrence engine (`calculateNextDueDate`,
`src/ProductivityScreen.tsx` lines 184-198) -/

inductive RecurrenceFrequency
  | daily | weekly | monthly | yearly
deriving DecidableEq, Repr

/-- Embedding of `calculateNextDueDate`.  The source builds
`new Date(currentDateStr + "T12:00:00")` (local midday, so day-boundary
shifts cannot occur and the timestamp stays on the same civil day through
every mutation), applies one `setDate` / `setMonth` / `setFullYear`, and
re-serialises by hand.  Each JS mutation recomputes the timestamp as
`MakeDay`; with months written 1-based:
`setDate x` ↦ `daysFromCivil y m 1 + x - 1`,
`setMonth x` (x 0-based) ↦ `daysFromCivil (y + x.fdiv 12) (x.emod 12 + 1) 1 + d - 1`,
`setFullYear x` ↦ `daysFromCivil x m 1 + d - 1`.
An unparseable input gives an Invalid Date, which the source would
serialise as `"NaN-NaN-NaN"`. -/
def calculateNextDueDate (currentDateStr : String) (frequency : RecurrenceFrequency) : String :=
  match parseDate currentDateStr with
  | none => "NaN-NaN-NaN"
  | some (y, m, d) =>
    let t : Int :=
      match frequency with
      | .daily => daysFromCivil y m 1 + (d + 1) - 1
      | .weekly => daysFromCivil y m 1 + (d + 7) - 1
      | .monthly =>
        let m0 := (m - 1) + 1
        daysFromCivil (y + m0.fdiv 12) (m0.emod 12 + 1) 1 + d - 1
      | .yearly => daysFromCivil (y + 1) m 1 + d - 1
    formatDate (civilFromDays t)

/-! ### Specification-side recurrence model

These definitions follow the spec's words (§4.1): "daily → +1 day, weekly
→ +7 days, monthly → +1 calendar month (day-of-month preserved, standard
month-overflow, no extra clamping), yearly → +1 calendar year". -/

/-- The date `n` days after `(y, m, d)`. -/
def specAddDays (y m d n : Int) : Int × Int × Int :=
  civilFromDays (daysFromCivil y m d + n)

/-- One calendar month later: same day-of-month in the following month,
with standard overflow into the month after when the day does not exist. -/
def specAddMonth (y m d : Int) : Int × Int × Int :=
  if m = 12 then civilFromDays (daysFromCivil (y + 1) 1 d)
  else civilFromDays (daysFromCivil y (m + 1) d)

/-- One calendar year later (same month and day-of-month, standard
overflow for Feb 29). -/
def specAddYear (y m d : Int) : Int × Int × Int :=
  civilFromDays (daysFromCivil (y + 1) m d)

/-! ## Task data model (the `Task` / `Subtask` shapes consumed from
`firebaseDb` by `src/ProductivityScreen.tsx`: Firestore ids are opaque
strings, subtask ids are numbers, `dueDate` / `importance` / `recurring` /
`subtasks` are optional fields) -/

inductive Importance
  | low | medium | high
deriving DecidableEq, Repr

structure Recurring where
  frequency : RecurrenceFrequency
deriving DecidableEq, Repr

structure Subtask where
  id : Int
  text : String
  completed : Bool
deriving DecidableEq, Repr

structure Task where
  id : String
  text : String
  completed : Bool
  dueDate : Option String
  importance : Option Importance
  recurring : Option Recurring
  subtasks : Option (List Subtask)
deriving DecidableEq, Repr

/-- JS truthiness of an optional string: `undefined` and `""` are falsy.
Used wherever the source tests `task.dueDate` with `?:` or `||`. -/
def truthyStr : Option String → Option String
  | some s => if s = "" then none else some s
  | none => none

/-- `a || b` on an optional string and a string default. -/
def jsOr (a : Option String) (b : String) : String :=
  match truthyStr a with
  | some s => s
  | none => b

/-! ## The ordering engine (`sortTasks`,
`src/ProductivityScreen.tsx` lines 24-47) -/

/-- Lexicographic comparison of character lists: the semantics of the JS
`<` operator on the id strings (code-unit by code-unit).  Reimplemented
structurally (rather than through `String.lt`'s iterator-based decision
procedure) so that concrete task lists evaluate inside the kernel. -/
def charListLt : List Char → List Char → Bool
  | [], [] => false
  | [], _ :: _ => true
  | _ :: _, [] => false
  | c :: cs, d :: ds => if c < d then true else if d < c then false else charListLt cs ds

/-- `x < y` for strings, as JS compares ids. -/
def strLt (x y : String) : Bool := charListLt x.data y.data

/-- `x ≤ y` lexicographically (`!(y < x)`). -/
def strLe (x y : String) : Bool := !strLt y x

/-- `importanceOrder` from the source: high = 1, medium = 2, low = 3. -/
def importanceOrder : Importance → Int
  | .high => 1
  | .medium => 2
  | .low => 3

/-- `a.importance ? importanceOrder[a.importance] : 4`. -/
def taskImportanceRank (t : Task) : Int :=
  match t.importance with
  | some i => importanceOrder i
  | none => 4

/-- `new Date(s).getTime()` for a `YYYY-MM-DD` string, up to the constant
positive factor 86400000, which preserves every comparison the comparator
makes.  An unparseable string gives `NaN` in JS; the ECMAScript sort
treats a `NaN` comparator result as `0`, so mapping such strings to a
fixed day number models the comparisons among them; claims about the
order only quantify over tasks whose due dates are well-formed. -/
def jsDateTime (s : String) : Int :=
  match parseDate s with
  | some (y, m, d) => daysFromCivil y m d
  | none => 0

/-- The comparator passed to `sort` in `sortTasks`.  Negative ⇒ `a`
first, positive ⇒ `b` first.  Note the both-dated arm returns the raw
time difference even when it is `0`, so the id tie-break is never reached
for two dated incomplete tasks. -/
def taskCmp (a b : Task) : Int :=
  if a.completed ≠ b.completed then (if a.completed then 1 else -1)
  else
    if a.completed = false then
      let ai := taskImportanceRank a
      let bi := taskImportanceRank b
      if ai ≠ bi then ai - bi
      else
        match truthyStr a.dueDate, truthyStr b.dueDate with
        | some _, none => -1
        | none, some _ => 1
        | some da, some db => jsDateTime da - jsDateTime db
        | none, none =>
          if strLt a.id b.id then 1 else if strLt b.id a.id then -1 else 0
    else
      if strLt a.id b.id then 1 else if strLt b.id a.id then -1 else 0

/-- The total preorder induced by the comparator (`taskCmp a b <= 0`,
i.e. the sort may place `a` at or before `b`). -/
def taskLe (a b : Task) : Prop := taskCmp a b ≤ 0

instance : DecidableRel taskLe := fun a b => by
  unfold taskLe; infer_instance

/-- `sortTasks` (`[...tasks].sort(comparator)`).  `Array.prototype.sort`
is a stable sort, and a stable sort with respect to a total preorder has
a unique result, so the stable `insertionSort` computes exactly what the
source's sort call produces. -/
def sortTasks (tasks : List Task) : List Task :=
  tasks.insertionSort taskLe

/-! ## Entity lifecycle operations (`src/ProductivityScreen.tsx`) -/

/-- The task produced by `handleToggleTask` (lines 318-336) for `task`,
where `today` is `new Date().toISOString().split("T")[0]`.  A recurring,
not-yet-completed task is advanced (due date moved to the next
occurrence, all subtasks reopened, `completed` untouched); any other task
has its `completed` flag flipped. -/
def toggledTask (task : Task) (today : String) : Task :=
  match task.recurring, task.completed with
  | some r, false =>
    { task with
      dueDate := some (calculateNextDueDate (jsOr task.dueDate today) r.frequency)
      subtasks := task.subtasks.map (fun sts => sts.map fun st => { st with completed := false }) }
  | _, _ => { task with completed := !task.completed }

/-- `handleToggleTask`'s state update:
`setTasks(prev => sortTasks(prev.map(t => t.id === task.id ? updatedTask : t)))`. -/
def handleToggleTask (tasks : List Task) (task : Task) (today : String) : List Task :=
  sortTasks (tasks.map fun t => if t.id = task.id then toggledTask task today else t)

/-- `handleToggleSubtask` (lines 338-351): flip one subtask's `completed`
inside its parent, replace the parent in place, and do NOT re-sort. -/
def handleToggleSubtask (tasks : List Task) (taskId : String) (subtaskId : Int) : List Task :=
  match tasks.find? (fun t => t.id = taskId) with
  | none => tasks
  | some taskToUpdate =>
    match taskToUpdate.subtasks with
    | none => tasks
    | some sts =>
      tasks.map fun t =>
        if t.id = taskId then
          { taskToUpdate with
            subtasks := some (sts.map fun st =>
              if st.id = subtaskId then { st with completed := !st.completed } else st) }
        else t

/-- The in-memory state `handleDeleteTask` acts on. -/
structure ProductivityState where
  tasks : List Task
  focusedTaskId : Option String
deriving DecidableEq, Repr

/-- `handleDeleteTask` (lines 354-359): clear the focus reference when it
points at the deleted id, then drop the task from the collection. -/
def handleDeleteTask (s : ProductivityState) (id : String) : ProductivityState :=
  { tasks := s.tasks.filter fun t => t.id ≠ id
    focusedTaskId := if s.focusedTaskId = some id then none else s.focusedTaskId }

/-- The form state of the add/edit modal. -/
structure TaskForm where
  text : String
  dueDate : String
  importance : Option Importance
  isRecurring : Bool
  recurrenceFrequency : RecurrenceFrequency
deriving DecidableEq, Repr

/-- The updated task built by `handleSaveTask` (lines 281-316) when
editing: field overwrite, then `completed = false` forced for recurring
tasks ("Recurring tasks should be active"). -/
def savedEditedTask (editingTask : Task) (form : TaskForm) : Task :=
  let updated :=
    { editingTask with
      text := form.text
      dueDate := if form.dueDate = "" then none else some form.dueDate
      importance := form.importance
      recurring := if form.isRecurring then some ⟨form.recurrenceFrequency⟩ else none }
  if form.isRecurring then { updated with completed := false } else updated

/-- The new task built by `handleSaveTask` when adding (`completed:
false`, `subtasks: []`); `id` is the store-assigned Firestore id. -/
def newTaskFromForm (form : TaskForm) (id : String) : Task :=
  { id := id
    text := form.text
    completed := false
    dueDate := if form.dueDate = "" then none else some form.dueDate
    importance := form.importance
    recurring := if form.isRecurring then some ⟨form.recurrenceFrequency⟩ else none
    subtasks := some [] }

/-- The subtasks generated by `handleBreakdownTask` (lines 374-412) from
the parsed response texts: `subtaskTexts.map((subtaskText, index) => ({
id: Date.now() + index, text: subtaskText, completed: false }))`, written
as a recursion carrying the running index. -/
def breakdownNewSubtasks (now : Int) : Nat → List String → List Subtask
  | _, [] => []
  | i, text :: rest =>
    { id := now + i, text := text, completed := false } :: breakdownNewSubtasks now (i + 1) rest

/-- `handleBreakdownTask`.  `response` is the outcome of the external
text-generation call: `none` for any thrown failure (transport error,
`JSON.parse` error, a shape on which the subtask mapping throws), all of
which land in the `catch` block that only logs; `some texts` for a parsed
`{ subtasks: string[] }` payload (a missing `subtasks` key is `some []`
via `result.subtasks || []`).  `now` is `Date.now()`. -/
def handleBreakdownTask (tasks : List Task) (task : Task)
    (response : Option (List String)) (now : Int) : List Task :=
  match response with
  | none => tasks
  | some texts =>
    if texts.length > 0 then
      let newSubtasks := breakdownNewSubtasks now 0 texts
      let updatedTask :=
        { task with subtasks := some (task.subtasks.getD [] ++ newSubtasks) }
      sortTasks (tasks.map fun t => if t.id = task.id then updatedTask else t)
    else tasks

/-- Position of a drop relative to the target's vertical midpoint. -/
inductive DropPosition
  | top | bottom
deriving DecidableEq, Repr

/-- `handleSubtaskDrop` (lines 480-508).  `dragged` is
`draggedSubtaskRef.current` (`none` when no drag is in flight), `pos?`
the position of `dragOverInfo` (`dragOverInfo?.position === "top"` is
false when it is `null`, hence the `bottom` default).  The source indexes
with `findIndex`/`splice`; the dragged and target subtasks exist in the
parent in every state the drag lifecycle can produce, and on those inputs
`findIdx`/`eraseIdx`/`insertIdx` compute exactly what `splice` does (the
`some movedItem` guard marks the source's unreachable `-1` path). -/
def handleSubtaskDrop (tasks : List Task) (dragged : Option (String × Subtask))
    (targetTaskId : String) (targetSubtask : Subtask) (pos? : Option DropPosition) : List Task :=
  match dragged with
  | none => tasks
  | some (sourceTaskId, sourceSubtask) =>
    if sourceTaskId ≠ targetTaskId ∨ sourceSubtask.id = targetSubtask.id then tasks
    else
      match tasks.find? (fun t => t.id = targetTaskId) with
      | none => tasks
      | some taskToUpdate =>
        match taskToUpdate.subtasks with
        | none => tasks
        | some sts =>
          let sourceIndex := sts.findIdx fun st => st.id = sourceSubtask.id
          let targetIndex := sts.findIdx fun st => st.id = targetSubtask.id
          match sts[sourceIndex]? with
          | none => tasks
          | some movedItem =>
            let remaining := sts.eraseIdx sourceIndex
            let adjustedTargetIndex :=
              if targetIndex > sourceIndex then targetIndex - 1 else targetIndex
            let newSubtasks :=
              match pos? with
              | some .top => remaining.insertIdx adjustedTargetIndex movedItem
              | _ => remaining.insertIdx (adjustedTargetIndex + 1) movedItem
            let updatedTask := { taskToUpdate with subtasks := some newSubtasks }
            tasks.map fun t => if t.id = targetTaskId then updatedTask else t

/-! ## Shopping list (`src/SupermarketScreen.tsx`)

JS numbers are modelled by `ℚ`; the `parseFloat` results for the quantity
and unit-price inputs are passed in as `Option ℚ` (`none` = `NaN`). -/

structure ListItem where
  id : Int
  text : String
  completed : Bool
  quantity : Option ℚ
  unitPrice : Option ℚ
  totalPrice : Option ℚ
deriving DecidableEq, Repr

/-- The `modalItemTotal` memo: `q * p` when `!isNaN(q) && q > 0 &&
!isNaN(p) && p >= 0`, else `0`. -/
def modalItemTotal (q p : Option ℚ) : ℚ :=
  match q, p with
  | some qv, some pv => if 0 < qv ∧ 0 ≤ pv then qv * pv else 0
  | _, _ => 0

/-- `handleModalConfirm` (lines 82-103) applied to the modal's item: a
no-op when `modalItemTotal <= 0`, otherwise the item is completed with
quantity, unit price and computed total price set. -/
def handleModalConfirm (item : ListItem) (q p : Option ℚ) : ListItem :=
  if modalItemTotal q p ≤ 0 then item
  else
    { item with
      completed := true
      quantity := q
      unitPrice := p
      totalPrice := some (modalItemTotal q p) }

/-- `handleCheckmarkClick` (lines 60-80): reopening a completed item
clears `completed` and all three pricing fields; clicking an uncompleted
item only opens the pricing modal (no item mutation). -/
def handleCheckmarkClick (item : ListItem) : ListItem :=
  if item.completed then
    { item with completed := false, quantity := none, unitPrice := none, totalPrice := none }
  else item

/-- The item constructed by `handleAddItem` (lines 40-58):
`{ id: Date.now(), text: inputValue, completed: false }`. -/
def newListItem (id : Int) (text : String) : ListItem :=
  { id := id, text := text, completed := false
    quantity := none, unitPrice := none, totalPrice := none }

/-- The ListItem pricing invariant (spec §3): `totalPrice = quantity *
unitPrice` whenever both factors are present, and the three pricing
fields are present exactly on completed items. -/
def itemInv (i : ListItem) : Prop :=
  (match i.quantity, i.unitPrice with
   | some qv, some pv => i.totalPrice = some (qv * pv)
   | _, _ => True) ∧
  ((i.quantity.isSome ∧ i.unitPrice.isSome ∧ i.totalPrice.isSome) ↔ i.completed = true)

instance (i : ListItem) : Decidable (itemInv i) := by
  unfold itemInv
  refine @instDecidableAnd _ _ ?_ ?_
  · rcases i.quantity with _ | qv <;> rcases i.unitPrice with _ | pv <;>
      simp only <;> infer_instance
  · infer_instance

/-- The invariant on recurring tasks (spec §3): a task with `recurring`
set is never in the completed state. -/
def recurringInv (t : Task) : Prop :=
  t.recurring.isSome = true → t.completed = false

instance (t : Task) : Decidable (recurringInv t) := by
  unfold recurringInv; infer_instance

/-- A task's due date, when present, is a well-formed `YYYY-MM-DD` date
(the data-model shape of `dueDate`). -/
def validTask (t : Task) : Prop :=
  ∀ s, t.dueDate = some s → (parseDate s).isSome = true

instance (t : Task) : Decidable (validTask t) := by
  unfold validTask
  cases t.dueDate with
  | none => exact isTrue (by intro s h; cases h)
  | some v =>
    exact decidable_of_iff ((parseDate v).isSome = true)
      (by constructor
          · intro h s hs
            cases hs
            exact h
          · intro h
            exact h v rfl)

/-- What claim C5 asserts of a single subtask toggle: the list keeps its
length, every task at an index whose id is not the parent's is untouched,
and the task at the parent's index keeps its position and every field
except that exactly the addressed subtask's `completed` flag is flipped
(ids, texts and the order of subtasks unchanged). -/
def subtaskToggleSpec (tasks : List Task) (taskId : String) (subtaskId : Int) : Prop :=
  (handleToggleSubtask tasks taskId subtaskId).length = tasks.length ∧
  ∀ (i : Nat) (t : Task), tasks[i]? = some t →
    (t.id ≠ taskId → (handleToggleSubtask tasks taskId subtaskId)[i]? = some t) ∧
    (t.id = taskId → ∃ u, (handleToggleSubtask tasks taskId subtaskId)[i]? = some u ∧
      u.id = t.id ∧ u.text = t.text ∧ u.completed = t.completed ∧
      u.dueDate = t.dueDate ∧ u.importance = t.importance ∧ u.recurring = t.recurring ∧
      (t.subtasks = none → u = t) ∧
      ∀ sts, t.subtasks = some sts → ∃ sts', u.subtasks = some sts' ∧
        sts'.length = sts.length ∧
        ∀ (j : Nat) (st : Subtask), sts[j]? = some st → ∃ st', sts'[j]? = some st' ∧
          st'.id = st.id ∧ st'.text = st.text ∧
          (st.id ≠ subtaskId → st'.completed = st.completed) ∧
          (st.id = subtaskId → st'.completed = !st.completed))

/-- Concrete subtasks and parent used to witness the drag-drop claim. -/
def dropTgt6 : Subtask := { id := 1, text := "a", completed := false }

/-- See `dropTgt6`. -/
def dropMid6 : Subtask := { id := 2, text := "b", completed := false }

/-- See `dropTgt6`. -/
def dropSrc6 : Subtask := { id := 3, text := "c", completed := false }

/-- See `dropTgt6`. -/
def dropParent6 : Task :=
  { id := "t1", text := "P", completed := false, dueDate := none, importance := none,
    recurring := none, subtasks := some [dropTgt6, dropMid6, dropSrc6] }

/-! ### Claim-side ordering relations (claim C3)

`claimTaskOrder` renders claim C3 exactly as stated: incomplete before
completed; among incomplete tasks ascending importance rank, then the due
date tier, with the descending-id tie-break applied to *every* remaining
tie; completed pairs ordered by descending id only.  `amendedTaskOrder`
is the corrected form: two incomplete tasks with equal rank whose due
dates are both present and equal carry no mutual order constraint
(the comparator returns `0` there, before the id tie-break is reached). -/

/-- A task's due-date sort key: the time value of its due date, absent
when the comparator treats the task as dateless. -/
def dueKey (t : Task) : Option Int :=
  (truthyStr t.dueDate).map jsDateTime

/-- The due-date tier of claim C3, id tie-break included on date ties:
dated before dateless, ascending date, descending id on equal dates or
when both are dateless. -/
def claimDateTier (a b : Task) : Prop :=
  ((dueKey a).isSome ∧ dueKey b = none) ∨
  ((dueKey a).isSome ∧ (dueKey b).isSome ∧
    ((dueKey a).getD 0 < (dueKey b).getD 0 ∨
      ((dueKey a).getD 0 = (dueKey b).getD 0 ∧ strLe b.id a.id = true))) ∨
  (dueKey a = none ∧ dueKey b = none ∧ strLe b.id a.id = true)

/-- Claim C3's asserted pairwise order on the sorted output. -/
def claimTaskOrder (a b : Task) : Prop :=
  (a.completed = false ∧ b.completed = true) ∨
  (a.completed = true ∧ b.completed = true ∧ strLe b.id a.id = true) ∨
  (a.completed = false ∧ b.completed = false ∧
    (taskImportanceRank a < taskImportanceRank b ∨
      (taskImportanceRank a = taskImportanceRank b ∧ claimDateTier a b)))

/-- The due-date tier as the comparator actually decides it: the
descending-id tie-break applies only when both tasks are dateless; a pair
of equal present dates is left unordered. -/
def amendedDateTier (a b : Task) : Prop :=
  ((dueKey a).isSome ∧ dueKey b = none) ∨
  ((dueKey a).isSome ∧ (dueKey b).isSome ∧ (dueKey a).getD 0 ≤ (dueKey b).getD 0) ∨
  (dueKey a = none ∧ dueKey b = none ∧ strLe b.id a.id = true)

/-- The amended pairwise order for claim C3. -/
def amendedTaskOrder (a b : Task) : Prop :=
  (a.completed = false ∧ b.completed = true) ∨
  (a.completed = true ∧ b.completed = true ∧ strLe b.id a.id = true) ∨
  (a.completed = false ∧ b.completed = false ∧
    (taskImportanceRank a < taskImportanceRank b ∨
      (taskImportanceRank a = taskImportanceRank b ∧ amendedDateTier a b)))

instance (a b : Task) : Decidable (claimDateTier a b) := by
  unfold claimDateTier; infer_instance

instance (a b : Task) : Decidable (claimTaskOrder a b) := by
  unfold claimTaskOrder; infer_instance

instance (a b : Task) : Decidable (amendedDateTier a b) := by
  unfold amendedDateTier; infer_instance

instance (a b : Task) : Decidable (amendedTaskOrder a b) := by
  unfold amendedTaskOrder; infer_instance

/-- Two incomplete tasks with no importance and the same due date, ids
ascending in input order: the comparator's both-dated arm returns `0` for
them, so the sort keeps them in input order instead of applying the
descending-id tie-break. -/
def cexTaskA : Task :=
  { id := "a", text := "A", completed := false, dueDate := some "2024-01-01"
    importance := none, recurring := none, subtasks := none }

/-- See `cexTaskA`. -/
def cexTaskB : Task :=
  { id := "b", text := "B", completed := false, dueDate := some "2024-01-01"
    importance := none, recurring := none, subtasks := none }

/-! ### Facts about the calendar model -/

/-- `daysFromCivil` is affine in the day-of-month argument, which is what
ties `setDate` / `setMonth` / `setFullYear` (all recomputed from the first
of the month) to the date the string denoted. -/
theorem daysFromCivil_shift (y m d : Int) :
    daysFromCivil y m 1 + d - 1 = daysFromCivil y m d := by
  simp only [daysFromCivil]
  ring

theorem parseDate_validDate {s : String} {y m d : Int}
    (h : parseDate s = some (y, m, d)) : ValidDate y m d := by
  unfold parseDate at h
  split at h
  · split at h
    · split at h
      · split at h
        · rename_i hv
          simp only [Option.some.injEq, Prod.mk.injEq] at h
          obtain ⟨rfl, rfl, rfl⟩ := h
          exact hv
        · exact absurd h (by simp)
      · exact absurd h (by simp)
    · exact absurd h (by simp)
  · exact absurd h (by simp)

/-! ### C2: the recurrence arithmetic -/

/-- C2: for every input date string in `YYYY-MM-DD` form (i.e. every
string the date parser accepts), `calculateNextDueDate` adds exactly one
day for `daily`, seven days for `weekly`, one calendar month with
standard overflow for `monthly` and one calendar year for `yearly`, and
serialises the result as a zero-padded `YYYY-MM-DD` string; in particular
`nextOccurrence("2024-01-15", monthly) = "2024-02-15"` and
`nextOccurrence("2024-12-31", daily) = "2025-01-01"`. -/
theorem C2_calculateNextDueDate :
    (∀ s y m d, parseDate s = some (y, m, d) →
      calculateNextDueDate s .daily = formatDate (specAddDays y m d 1) ∧
      calculateNextDueDate s .weekly = formatDate (specAddDays y m d 7) ∧
      calculateNextDueDate s .monthly = formatDate (specAddMonth y m d) ∧
      calculateNextDueDate s .yearly = formatDate (specAddYear y m d)) ∧
    calculateNextDueDate "2024-01-15" .monthly = "2024-02-15" ∧
    calculateNextDueDate "2024-12-31" .daily = "2025-01-01" := by
  refine ⟨?_, by decide, by decide⟩
  intro s y m d h
  obtain ⟨hm1, hm12, _, _⟩ := parseDate_validDate h
  unfold calculateNextDueDate
  rw [h]
  refine ⟨?_, ?_, ?_, ?_⟩
  · show formatDate (civilFromDays (daysFromCivil y m 1 + (d + 1) - 1)) = _
    unfold specAddDays
    rw [show daysFromCivil y m 1 + (d + 1) - 1 = daysFromCivil y m 1 + d - 1 + 1 by ring,
      daysFromCivil_shift]
  · show formatDate (civilFromDays (daysFromCivil y m 1 + (d + 7) - 1)) = _
    unfold specAddDays
    rw [show daysFromCivil y m 1 + (d + 7) - 1 = daysFromCivil y m 1 + d - 1 + 7 by ring,
      daysFromCivil_shift]
  · show formatDate (civilFromDays
        (daysFromCivil (y + (m - 1 + 1).fdiv 12) ((m - 1 + 1).emod 12 + 1) 1 + d - 1)) = _
    unfold specAddMonth
    by_cases h12 : m = 12
    · subst h12
      norm_num
      rw [daysFromCivil_shift]
    · have hlt : m < 12 := lt_of_le_of_ne hm12 h12
      have hfd : (m - 1 + 1).fdiv 12 = 0 := by
        rw [show m - 1 + 1 = m by ring, Int.fdiv_eq_ediv _ (by norm_num)]
        omega
      have hem : (m - 1 + 1).emod 12 = m := by
        rw [show m - 1 + 1 = m by ring]
        exact Int.emod_eq_of_lt (by omega) (by omega)
      rw [hfd, hem, if_neg h12, add_zero, daysFromCivil_shift]
  · show formatDate (civilFromDays (daysFromCivil (y + 1) m 1 + d - 1)) = _
    unfold specAddYear
    rw [daysFromCivil_shift]

/-- Witness for C2 at the concrete date `2024-03-10`. -/
theorem C2_calculateNextDueDate_witness :
    calculateNextDueDate "2024-03-10" .daily = formatDate (specAddDays 2024 3 10 1) ∧
    calculateNextDueDate "2024-03-10" .monthly = formatDate (specAddMonth 2024 3 10) :=
  ⟨(C2_calculateNextDueDate.1 "2024-03-10" 2024 3 10 (by decide)).1,
   (C2_calculateNextDueDate.1 "2024-03-10" 2024 3 10 (by decide)).2.2.1⟩

/-! ### The comparator as a total preorder -/

theorem charListLt_asymm : ∀ (x y : List Char),
    charListLt x y = true → charListLt y x = false := by
  intro x
  induction x with
  | nil =>
    intro y h
    cases y with
    | nil => simp [charListLt] at h ⊢
    | cons d ds => simp [charListLt]
  | cons c cs ih =>
    intro y h
    cases y with
    | nil => simp [charListLt] at h
    | cons d ds =>
      simp only [charListLt] at h ⊢
      by_cases h1 : c < d
      · have h2 : ¬d < c := lt_asymm h1
        simp [h1, h2]
      · by_cases h2 : d < c
        · simp [h1, h2] at h
        · simp only [h1, h2, if_false, reduceIte] at h ⊢
          exact ih ds h

theorem charListLt_neg_trans : ∀ (a b c : List Char),
    charListLt a b = false → charListLt b c = false → charListLt a c = false := by
  intro a
  induction a with
  | nil =>
    intro b c hab hbc
    cases b with
    | nil =>
      cases c with
      | nil => simp [charListLt]
      | cons z zs => simp [charListLt] at hbc
    | cons y ys => simp [charListLt] at hab
  | cons x xs ih =>
    intro b c hab hbc
    cases b with
    | nil =>
      cases c with
      | nil => simp [charListLt]
      | cons z zs => simp [charListLt] at hbc
    | cons y ys =>
      cases c with
      | nil => simp [charListLt]
      | cons z zs =>
        simp only [charListLt] at hab hbc ⊢
        by_cases hxy : x < y
        · simp [hxy] at hab
        · by_cases hyz : y < z
          · simp [hyz] at hbc
          · by_cases hyx : y < x
            · have hzx : z < x := lt_of_le_of_lt (le_of_not_lt hyz) hyx
              simp [lt_asymm hzx, hzx]
            · have hxy' : x = y := le_antisymm (le_of_not_lt hyx) (le_of_not_lt hxy)
              by_cases hzy : z < y
              · have hzx : z < x := hxy' ▸ hzy
                simp [lt_asymm hzx, hzx]
              · have hyz' : y = z := le_antisymm (le_of_not_lt hzy) (le_of_not_lt hyz)
                subst hxy'
                subst hyz'
                simp only [lt_irrefl, if_false, reduceIte] at hab hbc ⊢
                exact ih ys zs hab hbc

theorem strLe_trans (x y z : String) (hxy : strLe x y = true) (hyz : strLe y z = true) :
    strLe x z = true := by
  unfold strLe strLt at *
  simp only [Bool.not_eq_true'] at *
  exact charListLt_neg_trans z.data y.data x.data hyz hxy

theorem strLe_total (x y : String) : strLe x y = true ∨ strLe y x = true := by
  unfold strLe strLt
  cases h : charListLt y.data x.data
  · exact Or.inl rfl
  · right
    rw [charListLt_asymm _ _ h]
    rfl

theorem strTie_le_iff (x y : String) :
    ((if strLt x y then (1 : Int) else if strLt y x then -1 else 0) ≤ 0) ↔
      strLe y x = true := by
  unfold strLe
  cases h : strLt x y
  · simp only [h, Bool.not_false, reduceIte]
    cases h2 : strLt y x <;> norm_num
  · simp only [h, Bool.not_true, reduceIte]
    norm_num

/-- The comparator's induced preorder, spelled out tier by tier: it is
exactly the amended order of claim C3. -/
theorem taskLe_iff (a b : Task) : taskLe a b ↔ amendedTaskOrder a b := by
  unfold taskLe taskCmp amendedTaskOrder
  cases hac : a.completed <;> cases hbc : b.completed
  · -- both incomplete
    simp only [hac, hbc, ne_eq, not_true_eq_false, Bool.false_eq_true, and_true, and_false,
      false_and, true_and, false_or, or_false, reduceIte]
    by_cases hr : taskImportanceRank a = taskImportanceRank b
    · simp only [hr, ne_eq, not_true_eq_false, lt_self_iff_false, false_or, true_and,
        reduceIte]
      rcases ha : truthyStr a.dueDate with _ | da <;>
        rcases hb : truthyStr b.dueDate with _ | db <;>
        simp [amendedDateTier, dueKey, ha, hb, strTie_le_iff, sub_nonpos]
    · have hne : taskImportanceRank a ≠ taskImportanceRank b := hr
      simp only [hne, ne_eq, not_false_iff, sub_nonpos, reduceIte, hr, false_and, or_false]
      omega
  · -- a incomplete, b completed: a first
    simp [hac, hbc]
  · -- a completed, b incomplete
    simp [hac, hbc]
  · -- both completed: descending id
    simp [hac, hbc, strTie_le_iff]

theorem amendedDateTier_trans {a b c : Task}
    (hab : amendedDateTier a b) (hbc : amendedDateTier b c) : amendedDateTier a c := by
  unfold amendedDateTier at *
  rcases ha : dueKey a with _ | ka <;> rcases hb : dueKey b with _ | kb <;>
    rcases hc : dueKey c with _ | kc <;>
    simp_all
  · exact strLe_trans _ _ _ hbc hab
  · exact le_trans hab hbc

theorem amendedTaskOrder_trans {a b c : Task}
    (hab : amendedTaskOrder a b) (hbc : amendedTaskOrder b c) : amendedTaskOrder a c := by
  unfold amendedTaskOrder at *
  rcases hab with ⟨ha, hb⟩ | ⟨ha, hb, hid⟩ | ⟨ha, hb, hr⟩ <;>
    rcases hbc with ⟨hb', hc⟩ | ⟨hb', hc, hid'⟩ | ⟨hb', hc, hr'⟩ <;>
    try (rw [hb] at hb'; cases hb')
  · exact Or.inl ⟨ha, hc⟩
  · exact Or.inr (Or.inl ⟨ha, hc, strLe_trans _ _ _ hid' hid⟩)
  · exact Or.inl ⟨ha, hc⟩
  · refine Or.inr (Or.inr ⟨ha, hc, ?_⟩)
    rcases hr with h | ⟨he, ht⟩ <;> rcases hr' with h' | ⟨he', ht'⟩
    · exact Or.inl (lt_trans h h')
    · exact Or.inl (he' ▸ h)
    · exact Or.inl (he ▸ h')
    · exact Or.inr ⟨he.trans he', amendedDateTier_trans ht ht'⟩

theorem amendedTaskOrder_total (a b : Task) :
    amendedTaskOrder a b ∨ amendedTaskOrder b a := by
  unfold amendedTaskOrder
  cases hac : a.completed <;> cases hbc : b.completed
  · by_cases hr : taskImportanceRank a = taskImportanceRank b
    · have htot : amendedDateTier a b ∨ amendedDateTier b a := by
        unfold amendedDateTier
        rcases ha : dueKey a with _ | ka <;> rcases hb : dueKey b with _ | kb <;> simp_all
        · exact strLe_total b.id a.id
        · exact le_total ka kb
      rcases htot with h | h
      · exact Or.inl (Or.inr (Or.inr ⟨rfl, rfl, Or.inr ⟨hr, h⟩⟩))
      · exact Or.inr (Or.inr (Or.inr ⟨rfl, rfl, Or.inr ⟨hr.symm, h⟩⟩))
    · rcases lt_or_gt_of_ne hr with h | h
      · exact Or.inl (Or.inr (Or.inr ⟨rfl, rfl, Or.inl h⟩))
      · exact Or.inr (Or.inr (Or.inr ⟨rfl, rfl, Or.inl h⟩))
  · exact Or.inl (Or.inl ⟨rfl, rfl⟩)
  · exact Or.inr (Or.inl ⟨rfl, rfl⟩)
  · rcases strLe_total b.id a.id with h | h
    · exact Or.inl (Or.inr (Or.inl ⟨rfl, rfl, h⟩))
    · exact Or.inr (Or.inr (Or.inl ⟨rfl, rfl, h⟩))

theorem taskLe_trans {a b c : Task} (hab : taskLe a b) (hbc : taskLe b c) : taskLe a c :=
  (taskLe_iff a c).mpr
    (amendedTaskOrder_trans ((taskLe_iff a b).mp hab) ((taskLe_iff b c).mp hbc))

theorem taskLe_total (a b : Task) : taskLe a b ∨ taskLe b a := by
  rcases amendedTaskOrder_total a b with h | h
  · exact Or.inl ((taskLe_iff a b).mpr h)
  · exact Or.inr ((taskLe_iff b a).mpr h)

/-! ### C3: the produced order -/

/-- C3 counterexample: two incomplete tasks (no importance) with the same
due date and ids `"a"`, `"b"` in ascending input order.  The claim's
descending-id tie-break would have to place `"b"` first, but the
comparator returns `0` for the pair (the both-dated arm returns the raw
time difference before the id comparison is reached), so the stable sort
leaves them in input order and the claimed pairwise order fails. -/
theorem C3_sortTasks_counterexample :
    (∀ t ∈ [cexTaskA, cexTaskB], validTask t) ∧
    sortTasks [cexTaskA, cexTaskB] = [cexTaskA, cexTaskB] ∧
    ¬(sortTasks [cexTaskA, cexTaskB]).Pairwise claimTaskOrder := by decide

/-- C3 amended: `sortTasks` permutes its input into an order that is
pairwise `amendedTaskOrder`: incomplete before completed; among
incomplete tasks ascending importance rank (high = 1, medium = 2, low =
3, none = 4), then dated before dateless with dates ascending; the
descending lexicographic id tie-break applies to completed pairs and to
incomplete pairs with no due dates, while two incomplete equal-rank tasks
with the same due date carry no mutual order constraint (the stable sort
keeps them in input order). -/
theorem C3_sortTasks_order (xs : List Task) (_hv : ∀ t ∈ xs, validTask t) :
    (sortTasks xs).Perm xs ∧ (sortTasks xs).Pairwise amendedTaskOrder := by
  constructor
  · exact List.perm_insertionSort taskLe xs
  · haveI : IsTotal Task taskLe := ⟨taskLe_total⟩
    haveI : IsTrans Task taskLe := ⟨fun _ _ _ => taskLe_trans⟩
    exact (List.sorted_insertionSort taskLe xs).imp fun hab => (taskLe_iff _ _).mp hab

/-- Witness for C3 (amended) on the concrete two-task list. -/
theorem C3_sortTasks_order_witness :
    (sortTasks [cexTaskA, cexTaskB]).Perm [cexTaskA, cexTaskB] ∧
    (sortTasks [cexTaskA, cexTaskB]).Pairwise amendedTaskOrder :=
  C3_sortTasks_order [cexTaskA, cexTaskB] (by decide)

/-! ### C4: idempotence of the sort -/

/-- C4: `sortTasks` is idempotent (stated for task lists whose due dates
are well-formed `YYYY-MM-DD` strings, the data-model shape). -/
theorem C4_sortTasks_idempotent (xs : List Task) (_hv : ∀ t ∈ xs, validTask t) :
    sortTasks (sortTasks xs) = sortTasks xs := by
  haveI : IsTotal Task taskLe := ⟨taskLe_total⟩
  haveI : IsTrans Task taskLe := ⟨fun _ _ _ => taskLe_trans⟩
  exact List.Sorted.insertionSort_eq (List.sorted_insertionSort taskLe xs)

/-- Witness for C4 on a concrete two-task list. -/
theorem C4_sortTasks_idempotent_witness :
    sortTasks (sortTasks
      [{ id := "x", text := "X", completed := true, dueDate := none,
         importance := none, recurring := none, subtasks := none },
       { id := "y", text := "Y", completed := false, dueDate := some "2024-05-05",
         importance := some .high, recurring := none, subtasks := none }]) =
    sortTasks
      [{ id := "x", text := "X", completed := true, dueDate := none,
         importance := none, recurring := none, subtasks := none },
       { id := "y", text := "Y", completed := false, dueDate := some "2024-05-05",
         importance := some .high, recurring := none, subtasks := none }] :=
  C4_sortTasks_idempotent _ (by decide)

/-! ### C1: completing a recurring task -/

/-- C1: for a task with `recurring` set and `completed = false`, the
toggle-complete operation leaves `completed` at `false`, moves the due
date to the next occurrence of `dueDate` (falling back to today's date
when absent), and clears `completed` on every subtask. -/
theorem C1_toggle_recurring (task : Task) (today : String) (r : Recurring)
    (hrec : task.recurring = some r) (hcomp : task.completed = false) :
    (toggledTask task today).completed = false ∧
    (toggledTask task today).dueDate =
      some (calculateNextDueDate (jsOr task.dueDate today) r.frequency) ∧
    ∀ sts, (toggledTask task today).subtasks = some sts →
      ∀ st ∈ sts, st.completed = false := by
  unfold toggledTask
  rw [hrec, hcomp]
  refine ⟨rfl, rfl, ?_⟩
  intro sts hsts st hst
  cases hsub : task.subtasks with
  | none => rw [hsub] at hsts; cases hsts
  | some l =>
    rw [hsub] at hsts
    simp only [Option.map_some', Option.some.injEq] at hsts
    subst hsts
    obtain ⟨st0, _, rfl⟩ := List.mem_map.mp hst
    rfl

/-- Witness for C1 on a concrete recurring task with one completed
subtask and no due date. -/
theorem C1_toggle_recurring_witness :
    (toggledTask
      { id := "t1", text := "water plants", completed := false,
        dueDate := none, importance := none,
        recurring := some ⟨.daily⟩,
        subtasks := some [{ id := 1, text := "front", completed := true }] }
      "2024-03-10").completed = false ∧
    (toggledTask
      { id := "t1", text := "water plants", completed := false,
        dueDate := none, importance := none,
        recurring := some ⟨.daily⟩,
        subtasks := some [{ id := 1, text := "front", completed := true }] }
      "2024-03-10").dueDate =
      some (calculateNextDueDate (jsOr none "2024-03-10") RecurrenceFrequency.daily) ∧
    ∀ sts, (toggledTask
      { id := "t1", text := "water plants", completed := false,
        dueDate := none, importance := none,
        recurring := some ⟨.daily⟩,
        subtasks := some [{ id := 1, text := "front", completed := true }] }
      "2024-03-10").subtasks = some sts → ∀ st ∈ sts, st.completed = false :=
  C1_toggle_recurring _ "2024-03-10" ⟨.daily⟩ rfl rfl

/-! ### C10: the recurring-tasks-are-active invariant -/

/-- C10: every task-mutating operation preserves the invariant that a
recurring task is not completed: creation always starts with `completed =
false`; saving an edit forces `completed = false` whenever the form marks
the task recurring (and removes `recurring` otherwise); and
toggle-complete yields `completed = false` on every task with `recurring`
set, whether its `completed` flag was `false` (recurrence branch, flag
untouched) or `true` (plain flip back to `false`), while never changing
`recurring` itself. -/
theorem C10_recurring_invariant (form : TaskForm) (id : String)
    (editingTask task : Task) (today : String) :
    recurringInv (newTaskFromForm form id) ∧
    recurringInv (savedEditedTask editingTask form) ∧
    recurringInv (toggledTask task today) ∧
    (toggledTask task today).recurring = task.recurring := by
  refine ⟨fun _ => rfl, ?_, ?_, ?_⟩
  · unfold recurringInv savedEditedTask
    by_cases hrec : form.isRecurring <;> simp [hrec]
  · unfold recurringInv toggledTask
    cases hr : task.recurring <;> cases hc : task.completed <;> simp [hr, hc]
  · unfold toggledTask
    cases hr : task.recurring <;> cases hc : task.completed <;> simp [hr, hc]

/-- Witness for C10: toggling a (corrupt) completed recurring task
returns it to `completed = false`. -/
theorem C10_recurring_invariant_witness :
    (toggledTask
      { id := "t2", text := "rent", completed := true, dueDate := some "2024-01-01",
        importance := none, recurring := some ⟨.monthly⟩, subtasks := none }
      "2024-02-02").completed = false :=
  (C10_recurring_invariant ⟨"x", "", none, false, .monthly⟩ "i"
    { id := "e", text := "E", completed := false, dueDate := none, importance := none,
      recurring := none, subtasks := none }
    _ "2024-02-02").2.2.1 rfl

/-! ### C9: deleting a task -/

/-- C9: `delete(id)` removes exactly the tasks carrying `id` from the
collection, keeps every other task (in order), clears the focus reference
when it pointed at the deleted id, and leaves it unchanged otherwise. -/
theorem C9_delete_task (s : ProductivityState) (id : String) :
    (∀ t ∈ (handleDeleteTask s id).tasks, t.id ≠ id) ∧
    (∀ t ∈ s.tasks, t.id ≠ id → t ∈ (handleDeleteTask s id).tasks) ∧
    (handleDeleteTask s id).tasks.Sublist s.tasks ∧
    (s.focusedTaskId = some id → (handleDeleteTask s id).focusedTaskId = none) ∧
    (s.focusedTaskId ≠ some id → (handleDeleteTask s id).focusedTaskId = s.focusedTaskId) := by
  unfold handleDeleteTask
  refine ⟨?_, ?_, ?_, ?_, ?_⟩
  · intro t ht
    simpa using List.of_mem_filter ht
  · intro t ht hne
    exact List.mem_filter.mpr ⟨ht, by simpa using hne⟩
  · exact List.filter_sublist _
  · intro h
    simp [h]
  · intro h
    simp [h]

/-- Witness for C9: deleting the focused task clears the focus. -/
theorem C9_delete_task_witness :
    (handleDeleteTask
      { tasks := [{ id := "x", text := "X", completed := false, dueDate := none,
                    importance := none, recurring := none, subtasks := none }]
        focusedTaskId := some "x" } "x").focusedTaskId = none ∧
    (∀ t ∈ (handleDeleteTask
      { tasks := [{ id := "x", text := "X", completed := false, dueDate := none,
                    importance := none, recurring := none, subtasks := none }]
        focusedTaskId := some "x" } "x").tasks, t.id ≠ "x") :=
  ⟨(C9_delete_task _ "x").2.2.2.1 rfl, (C9_delete_task _ "x").1⟩

/-! ### C7: the shopping-list pricing invariant -/

/-- C7: the pricing operations preserve the `ListItem` invariant
(`totalPrice = quantity * unitPrice` when both factors are present, and
the three pricing fields present exactly on completed items); completing
with quantity 3 and unit price 2.50 yields total price 7.50; and
reopening a completed item clears `completed` and all three pricing
fields. -/
theorem C7_listItem_pricing (item : ListItem) (q p : Option ℚ) (idv : Int) (text : String) :
    (itemInv item → itemInv (handleModalConfirm item q p)) ∧
    (itemInv item → itemInv (handleCheckmarkClick item)) ∧
    itemInv (newListItem idv text) ∧
    (handleModalConfirm item (some 3) (some (5 / 2))).totalPrice = some (15 / 2) ∧
    (item.completed = true →
      (handleCheckmarkClick item).completed = false ∧
      (handleCheckmarkClick item).quantity = none ∧
      (handleCheckmarkClick item).unitPrice = none ∧
      (handleCheckmarkClick item).totalPrice = none) := by
  refine ⟨?_, ?_, ?_, ?_, ?_⟩
  · intro hinv
    unfold handleModalConfirm
    by_cases hguard : modalItemTotal q p ≤ 0
    · simpa [hguard] using hinv
    · rcases q with _ | qv
      · exact absurd (le_refl (0 : ℚ)) (by simp [modalItemTotal] at hguard)
      · rcases p with _ | pv
        · exact absurd (le_refl (0 : ℚ)) (by simp [modalItemTotal] at hguard)
        · by_cases hc : 0 < qv ∧ 0 ≤ pv
          · have htot : modalItemTotal (some qv) (some pv) = qv * pv := by
              simp [modalItemTotal, hc]
            rw [if_neg hguard, htot]
            exact ⟨by simp, by simp⟩
          · exact absurd (by simp [modalItemTotal, hc]) hguard
  · intro hinv
    unfold handleCheckmarkClick
    by_cases hc : item.completed
    · simp only [hc, reduceIte]
      exact ⟨trivial, by simp⟩
    · simpa [hc] using hinv
  · exact ⟨trivial, by simp [newListItem]⟩
  · have htot : modalItemTotal (some 3) (some (5 / 2 : ℚ)) = 15 / 2 := by
      norm_num [modalItemTotal]
    unfold handleModalConfirm
    rw [htot]
    norm_num
  · intro h
    simp [handleCheckmarkClick, h]

/-- Witness for C7 on a concrete completed item satisfying the
invariant. -/
theorem C7_listItem_pricing_witness :
    itemInv (handleModalConfirm
      { id := 1, text := "milk", completed := true,
        quantity := some 2, unitPrice := some 3, totalPrice := some 6 }
      (some 3) (some (5 / 2))) ∧
    (handleCheckmarkClick
      { id := 1, text := "milk", completed := true,
        quantity := some 2, unitPrice := some 3, totalPrice := some 6 }).completed = false :=
  ⟨(C7_listItem_pricing _ (some 3) (some (5 / 2)) 0 "").1 (by exact ⟨by norm_num, by simp⟩),
   ((C7_listItem_pricing _ (some 3) (some (5 / 2)) 0 "").2.2.2.2 rfl).1⟩

/-! ### C5: toggling one subtask -/

theorem mem_of_getElem?_eq_some {α : Type} {l : List α} {i : Nat} {a : α}
    (h : l[i]? = some a) : a ∈ l := by
  rw [← List.get?_eq_getElem?] at h
  exact List.get?_mem h

/-- C5: toggling one subtask's `completed` flag (on a list with unique
task ids, the data-model shape) changes only that subtask's `completed`
field within its parent task; the parent keeps its index and every other
field, and every other task is untouched — in particular the list is not
re-sorted. -/
theorem C5_toggle_subtask (tasks : List Task) (taskId : String) (subtaskId : Int)
    (hids : (tasks.map Task.id).Nodup) :
    subtaskToggleSpec tasks taskId subtaskId := by
  rcases hfind : tasks.find? (fun t => t.id = taskId) with _ | t0
  · -- no task carries the id: the operation is the identity
    have hr : handleToggleSubtask tasks taskId subtaskId = tasks := by
      unfold handleToggleSubtask
      rw [hfind]
    have hnone : ∀ t ∈ tasks, t.id ≠ taskId := by
      intro t ht
      have := List.find?_eq_none.mp hfind t ht
      simpa using this
    unfold subtaskToggleSpec
    rw [hr]
    refine ⟨rfl, ?_⟩
    intro i t hit
    exact ⟨fun _ => hit, fun heq => absurd heq (hnone t (mem_of_getElem?_eq_some hit))⟩
  · have ht0mem : t0 ∈ tasks := List.mem_of_find?_eq_some hfind
    have ht0id : t0.id = taskId := by simpa using List.find?_some hfind
    rcases hsub : t0.subtasks with _ | sts0
    · -- the parent has no subtask array: the operation is the identity
      have hr : handleToggleSubtask tasks taskId subtaskId = tasks := by
        unfold handleToggleSubtask
        simp only [hfind, hsub]
      unfold subtaskToggleSpec
      rw [hr]
      refine ⟨rfl, ?_⟩
      intro i t hit
      refine ⟨fun _ => hit, fun heq => ?_⟩
      have hti : t = t0 :=
        List.inj_on_of_nodup_map hids (mem_of_getElem?_eq_some hit) ht0mem (by rw [heq, ht0id])
      subst hti
      exact ⟨t, hit, rfl, rfl, rfl, rfl, rfl, rfl, fun _ => rfl,
        fun sts hsts => absurd hsts (by rw [hsub]; intro h; cases h)⟩
    · -- the parent is replaced in place
      have hr : handleToggleSubtask tasks taskId subtaskId =
          tasks.map fun t =>
            if t.id = taskId then
              { t0 with
                subtasks := some (sts0.map fun st =>
                  if st.id = subtaskId then { st with completed := !st.completed } else st) }
            else t := by
        unfold handleToggleSubtask
        simp only [hfind, hsub]
      unfold subtaskToggleSpec
      rw [hr]
      refine ⟨List.length_map _ _, ?_⟩
      intro i t hit
      have hmap : (tasks.map fun t =>
          if t.id = taskId then
            { t0 with
              subtasks := some (sts0.map fun st =>
                if st.id = subtaskId then { st with completed := !st.completed } else st) }
          else t)[i]? = some (if t.id = taskId then
            { t0 with
              subtasks := some (sts0.map fun st =>
                if st.id = subtaskId then { st with completed := !st.completed } else st) }
          else t) := by
        rw [List.getElem?_map, hit]
        rfl
      constructor
      · intro hne
        rwa [if_neg hne] at hmap
      · intro heq
        have hti : t = t0 :=
          List.inj_on_of_nodup_map hids (mem_of_getElem?_eq_some hit) ht0mem (by rw [heq, ht0id])
        rw [if_pos heq] at hmap
        subst hti
        refine ⟨_, hmap, rfl, rfl, rfl, rfl, rfl, rfl, fun hn => ?_, ?_⟩
        · rw [hsub] at hn
          cases hn
        · intro sts hsts
          rw [hsub] at hsts
          injection hsts with hsts
          subst hsts
          refine ⟨_, rfl, List.length_map _ _, ?_⟩
          intro j st hjst
          have hmap2 : (sts0.map fun st =>
              if st.id = subtaskId then { st with completed := !st.completed } else st)[j]? =
              some (if st.id = subtaskId then { st with completed := !st.completed } else st) := by
            rw [List.getElem?_map, hjst]
            rfl
          by_cases hst : st.id = subtaskId
          · rw [if_pos hst] at hmap2
            exact ⟨_, hmap2, rfl, rfl, fun hne => absurd hst hne, fun _ => rfl⟩
          · rw [if_neg hst] at hmap2
            exact ⟨_, hmap2, rfl, rfl, fun _ => rfl, fun heq2 => absurd heq2 hst⟩

/-- Witness for C5 on a concrete two-task list. -/
theorem C5_toggle_subtask_witness :
    subtaskToggleSpec
      [{ id := "t1", text := "A", completed := false, dueDate := none, importance := none,
         recurring := none,
         subtasks := some [{ id := 2, text := "s", completed := false }] },
       { id := "t2", text := "B", completed := false, dueDate := none, importance := none,
         recurring := none, subtasks := none }]
      "t1" 2 :=
  C5_toggle_subtask _ "t1" 2 (by decide)

/-! ### C8: subtask generation (breakdown) -/

theorem breakdownNewSubtasks_map_text (now : Int) :
    ∀ (i : Nat) (texts : List String),
      (breakdownNewSubtasks now i texts).map Subtask.text = texts := by
  intro i texts
  induction texts generalizing i with
  | nil => rfl
  | cons x xs ih => simpa [breakdownNewSubtasks] using ih (i + 1)

theorem breakdownNewSubtasks_completed (now : Int) :
    ∀ (i : Nat) (texts : List String),
      ∀ st ∈ breakdownNewSubtasks now i texts, st.completed = false := by
  intro i texts
  induction texts generalizing i with
  | nil => intro st h; cases h
  | cons x xs ih =>
    intro st h
    rcases List.mem_cons.mp h with rfl | h
    · rfl
    · exact ih (i + 1) st h

theorem breakdownNewSubtasks_id_bounds (now : Int) :
    ∀ (i : Nat) (texts : List String),
      ∀ st ∈ breakdownNewSubtasks now i texts,
        now + i ≤ st.id ∧ st.id < now + i + texts.length := by
  intro i texts
  induction texts generalizing i with
  | nil => intro st h; cases h
  | cons x xs ih =>
    intro st h
    rcases List.mem_cons.mp h with rfl | h
    · constructor
      · simp
      · simp only [List.length_cons]
        push_cast
        linarith [Int.ofNat_nonneg xs.length]
    · obtain ⟨h1, h2⟩ := ih (i + 1) st h
      constructor
      · push_cast at h1 ⊢
        linarith
      · simp only [List.length_cons] at h2 ⊢
        push_cast at h2 ⊢
        linarith

theorem breakdownNewSubtasks_id_nodup (now : Int) :
    ∀ (i : Nat) (texts : List String),
      ((breakdownNewSubtasks now i texts).map Subtask.id).Nodup := by
  intro i texts
  induction texts generalizing i with
  | nil => exact List.nodup_nil
  | cons x xs ih =>
    refine List.nodup_cons.mpr ⟨?_, ih (i + 1)⟩
    intro hmem
    obtain ⟨st, hst, hid⟩ := List.mem_map.mp hmem
    have := (breakdownNewSubtasks_id_bounds now (i + 1) xs st hst).1
    rw [hid] at this
    push_cast at this
    linarith

/-- C8: a failed breakdown call (`none`: transport error, JSON parse
error, or a throwing shape) and an empty/missing `subtasks` payload leave
the collection unchanged; a successful call appends the generated
subtasks — texts in order,`completed = false`, ids `now, now+1, …` — to
the task's existing subtask sequence, and those ids are fresh (hence the
ids stay unique) whenever the existing subtask ids are unique and below
`Date.now()`. -/
theorem C8_breakdown (tasks : List Task) (task : Task) (texts : List String) (now : Int) :
    handleBreakdownTask tasks task none now = tasks ∧
    handleBreakdownTask tasks task (some []) now = tasks ∧
    (texts ≠ [] → task ∈ tasks →
      ∃ newSts : List Subtask,
        newSts.map Subtask.text = texts ∧
        (∀ st ∈ newSts, st.completed = false) ∧
        (∀ u ∈ handleBreakdownTask tasks task (some texts) now, u.id = task.id →
          u.subtasks = some (task.subtasks.getD [] ++ newSts)) ∧
        (∃ u ∈ handleBreakdownTask tasks task (some texts) now, u.id = task.id) ∧
        (((task.subtasks.getD []).map Subtask.id).Nodup →
          (∀ st ∈ task.subtasks.getD [], st.id < now) →
          (((task.subtasks.getD [] ++ newSts)).map Subtask.id).Nodup)) := by
  refine ⟨rfl, rfl, ?_⟩
  intro hne hmem
  have hlen : texts.length > 0 := List.length_pos.mpr hne
  have hr : handleBreakdownTask tasks task (some texts) now =
      sortTasks (tasks.map fun t =>
        if t.id = task.id then
          { task with subtasks := some (task.subtasks.getD [] ++ breakdownNewSubtasks now 0 texts) }
        else t) := by
    simp [handleBreakdownTask, hlen]
  refine ⟨breakdownNewSubtasks now 0 texts,
    breakdownNewSubtasks_map_text now 0 texts,
    breakdownNewSubtasks_completed now 0 texts, ?_, ?_, ?_⟩
  · intro u hu huid
    rw [hr] at hu
    have hu' : u ∈ tasks.map fun t =>
        if t.id = task.id then
          { task with subtasks := some (task.subtasks.getD [] ++ breakdownNewSubtasks now 0 texts) }
        else t :=
      (List.perm_insertionSort taskLe _).mem_iff.mp hu
    obtain ⟨t0, _, hft⟩ := List.mem_map.mp hu'
    by_cases h0 : t0.id = task.id
    · rw [if_pos h0] at hft
      rw [← hft]
    · rw [if_neg h0] at hft
      rw [← hft] at huid
      exact absurd huid h0
  · refine ⟨{ task with
        subtasks := some (task.subtasks.getD [] ++ breakdownNewSubtasks now 0 texts) },
      ?_, rfl⟩
    rw [hr]
    refine (List.perm_insertionSort taskLe _).mem_iff.mpr ?_
    refine List.mem_map.mpr ⟨task, hmem, ?_⟩
    rw [if_pos rfl]
  · intro hnd hbelow
    rw [List.map_append, List.nodup_append]
    refine ⟨hnd, breakdownNewSubtasks_id_nodup now 0 texts, ?_⟩
    intro x hx hx'
    obtain ⟨st, hst, rfl⟩ := List.mem_map.mp hx
    obtain ⟨st', hst', hid⟩ := List.mem_map.mp hx'
    have h1 : st.id < now := hbelow st hst
    have h2 : now + (0 : Nat) ≤ st'.id :=
      (breakdownNewSubtasks_id_bounds now 0 texts st' hst').1
    rw [hid] at h2
    push_cast at h2
    linarith

/-- Witness for C8 on a one-task list with an existing subtask. -/
theorem C8_breakdown_witness :
    ∃ newSts : List Subtask,
      newSts.map Subtask.text = ["a", "b"] ∧
      (∀ st ∈ newSts, st.completed = false) ∧
      (∀ u ∈ handleBreakdownTask
          [{ id := "t1", text := "big", completed := false, dueDate := none,
             importance := none, recurring := none,
             subtasks := some [{ id := 1, text := "old", completed := true }] }]
          { id := "t1", text := "big", completed := false, dueDate := none,
            importance := none, recurring := none,
            subtasks := some [{ id := 1, text := "old", completed := true }] }
          (some ["a", "b"]) 100,
        u.id = "t1" →
          u.subtasks = some (Option.getD (some [{ id := 1, text := "old", completed := true }]) []
            ++ newSts)) ∧
      (∃ u ∈ handleBreakdownTask
          [{ id := "t1", text := "big", completed := false, dueDate := none,
             importance := none, recurring := none,
             subtasks := some [{ id := 1, text := "old", completed := true }] }]
          { id := "t1", text := "big", completed := false, dueDate := none,
            importance := none, recurring := none,
            subtasks := some [{ id := 1, text := "old", completed := true }] }
          (some ["a", "b"]) 100,
        u.id = "t1") ∧
      ((((some [{ id := 1, text := "old", completed := true }] : Option (List Subtask)).getD
          []).map Subtask.id).Nodup →
        (∀ st ∈ (some [{ id := 1, text := "old", completed := true }] :
            Option (List Subtask)).getD [], st.id < 100) →
        ((((some [{ id := 1, text := "old", completed := true }] :
            Option (List Subtask)).getD [] ++ newSts)).map Subtask.id).Nodup) :=
  (C8_breakdown _ _ ["a", "b"] 100).2.2 (by decide) (List.mem_singleton.mpr rfl)

/-! ### C6: subtask drag-and-drop reordering -/

theorem nodup_id_decomp (p : List Subtask) (a : Subtask) (q : List Subtask)
    (h : ((p ++ a :: q).map Subtask.id).Nodup) :
    (∀ x ∈ p, x.id ≠ a.id) ∧ (∀ x ∈ q, x.id ≠ a.id) ∧
    ((p ++ q).map Subtask.id).Nodup := by
  rw [List.map_append, List.map_cons] at h
  obtain ⟨hp, hq, hdisj⟩ := List.nodup_append.mp h
  obtain ⟨hnotin, hq'⟩ := List.nodup_cons.mp hq
  refine ⟨?_, ?_, ?_⟩
  · intro x hx heq
    exact hdisj (List.mem_map_of_mem _ hx) (by rw [heq]; exact List.mem_cons_self _ _)
  · intro x hx heq
    exact hnotin (by rw [← heq]; exact List.mem_map_of_mem _ hx)
  · rw [List.map_append]
    exact List.nodup_append.mpr
      ⟨hp, hq', fun y hy hy' => hdisj hy (List.mem_cons_of_mem _ hy')⟩

theorem findIdx_append_cons (p : List Subtask) (a : Subtask) (q : List Subtask) (i : Int)
    (hp : ∀ x ∈ p, x.id ≠ i) (ha : a.id = i) :
    (p ++ a :: q).findIdx (fun st => st.id = i) = p.length := by
  induction p with
  | nil => simp [List.findIdx_cons, ha]
  | cons x xs ih =>
    have hx : ¬x.id = i := hp x (List.mem_cons_self x xs)
    simp only [List.cons_append, List.findIdx_cons, hx, decide_False, cond_false,
      List.length_cons]
    rw [ih fun y hy => hp y (List.mem_cons_of_mem x hy)]

theorem getElem?_append_cons {α : Type} (p : List α) (a : α) (q : List α) :
    (p ++ a :: q)[p.length]? = some a := by
  induction p with
  | nil => simp
  | cons x xs ih => simpa using ih

theorem eraseIdx_append_cons {α : Type} (p : List α) (a : α) (q : List α) :
    (p ++ a :: q).eraseIdx p.length = p ++ q := by
  induction p with
  | nil => rfl
  | cons x xs ih => simpa [List.eraseIdx] using ih

theorem insertIdx_append_shift {α : Type} (p q : List α) (k : Nat) (a : α) :
    (p ++ q).insertIdx (p.length + k) a = p ++ q.insertIdx k a := by
  induction p with
  | nil => simp
  | cons x xs ih => simpa [Nat.succ_add, List.insertIdx_succ_cons] using ih

/-- The splice-based move: removing the source subtask and reinserting it
at the adjusted target index places it immediately before (`insertIdx
adj`) or after (`insertIdx (adj+1)`) the target, leaving the relative
order of all other subtasks unchanged and preserving the multiset. -/
theorem subtask_move (l : List Subtask) (s t : Subtask)
    (hnd : (l.map Subtask.id).Nodup) (hs : s ∈ l) (ht : t ∈ l) (hne : s.id ≠ t.id) :
    ∃ u v,
      l[l.findIdx (fun st => st.id = s.id)]? = some s ∧
      (l.eraseIdx (l.findIdx fun st => st.id = s.id)).insertIdx
        (if l.findIdx (fun st => st.id = t.id) > l.findIdx (fun st => st.id = s.id)
         then l.findIdx (fun st => st.id = t.id) - 1
         else l.findIdx (fun st => st.id = t.id)) s = u ++ s :: t :: v ∧
      (l.eraseIdx (l.findIdx fun st => st.id = s.id)).insertIdx
        ((if l.findIdx (fun st => st.id = t.id) > l.findIdx (fun st => st.id = s.id)
          then l.findIdx (fun st => st.id = t.id) - 1
          else l.findIdx (fun st => st.id = t.id)) + 1) s = u ++ t :: s :: v ∧
      u ++ v = l.filter (fun st => st.id ≠ s.id ∧ st.id ≠ t.id) ∧
      (u ++ s :: t :: v).Perm l ∧
      (u ++ t :: s :: v).Perm l := by
  have htne : t ≠ s := fun h => hne (congrArg Subtask.id h.symm)
  obtain ⟨p, w, rfl⟩ := List.append_of_mem hs
  have ht' : t ∈ p ∨ t ∈ w := by
    rcases List.mem_append.mp ht with h | h
    · exact Or.inl h
    · rcases List.mem_cons.mp h with h | h
      · exact absurd h htne
      · exact Or.inr h
  rcases ht' with htp | htw
  · -- target before source: p = w₁ ++ t :: w₂
    obtain ⟨w₁, w₂, rfl⟩ := List.append_of_mem htp
    obtain ⟨hpre_s, hw_s, -⟩ := nodup_id_decomp (w₁ ++ t :: w₂) s w hnd
    have hassoc : (w₁ ++ t :: w₂) ++ s :: w = w₁ ++ t :: (w₂ ++ s :: w) := by simp
    obtain ⟨hw1_t, hrest_t, -⟩ := nodup_id_decomp w₁ t (w₂ ++ s :: w) (by rw [← hassoc]; exact hnd)
    have hsi : ((w₁ ++ t :: w₂) ++ s :: w).findIdx (fun st => st.id = s.id)
        = (w₁ ++ t :: w₂).length :=
      findIdx_append_cons _ s w s.id hpre_s rfl
    have hti : ((w₁ ++ t :: w₂) ++ s :: w).findIdx (fun st => st.id = t.id) = w₁.length := by
      rw [hassoc]
      exact findIdx_append_cons w₁ t _ t.id hw1_t rfl
    have hlen : (w₁ ++ t :: w₂).length = w₁.length + w₂.length + 1 := by
      simp [Nat.add_comm, Nat.add_assoc, Nat.add_left_comm]
    have hngt : ¬(((w₁ ++ t :: w₂) ++ s :: w).findIdx (fun st => st.id = t.id) >
        ((w₁ ++ t :: w₂) ++ s :: w).findIdx (fun st => st.id = s.id)) := by
      rw [hsi, hti, hlen]
      omega
    have herase : ((w₁ ++ t :: w₂) ++ s :: w).eraseIdx
        (((w₁ ++ t :: w₂) ++ s :: w).findIdx fun st => st.id = s.id)
        = w₁ ++ (t :: (w₂ ++ w)) := by
      rw [hsi, eraseIdx_append_cons]
      simp
    refine ⟨w₁, w₂ ++ w, ?_, ?_, ?_, ?_, ?_, ?_⟩
    · rw [hsi]
      exact getElem?_append_cons _ s w
    · rw [herase, if_neg hngt, hti, show w₁.length = w₁.length + 0 from rfl,
        insertIdx_append_shift]
      rfl
    · rw [herase, if_neg hngt, hti, show w₁.length + 1 = w₁.length + 1 from rfl,
        insertIdx_append_shift w₁ (t :: (w₂ ++ w)) 1 s]
      rw [List.insertIdx_succ_cons]
      rfl
    · -- filter characterisation
      have hfw1 : w₁.filter (fun st => st.id ≠ s.id ∧ st.id ≠ t.id) = w₁ :=
        List.filter_eq_self.mpr fun x hx => by
          simp [hpre_s x (List.mem_append_left _ hx), hw1_t x hx]
      have hfw2 : w₂.filter (fun st => st.id ≠ s.id ∧ st.id ≠ t.id) = w₂ :=
        List.filter_eq_self.mpr fun x hx => by
          simp [hpre_s x (List.mem_append_right _ (List.mem_cons_of_mem _ hx)),
            hrest_t x (List.mem_append_left _ hx)]
      have hfw : w.filter (fun st => st.id ≠ s.id ∧ st.id ≠ t.id) = w :=
        List.filter_eq_self.mpr fun x hx => by
          simp [hw_s x hx,
            hrest_t x (List.mem_append_right _ (List.mem_cons_of_mem _ hx))]
      simp only [List.filter_append, List.filter_cons, hfw1, hfw2, hfw]
      simp [hne]
    · -- permutation, top placement
      have h1 : (w₁ ++ s :: (t :: (w₂ ++ w))).Perm (s :: (w₁ ++ t :: (w₂ ++ w))) :=
        List.perm_middle
      have h2 : ((w₁ ++ t :: w₂) ++ s :: w).Perm (s :: ((w₁ ++ t :: w₂) ++ w)) :=
        List.perm_middle
      have h3 : w₁ ++ t :: (w₂ ++ w) = (w₁ ++ t :: w₂) ++ w := by simp
      rw [show w₁ ++ s :: t :: (w₂ ++ w) = w₁ ++ s :: (t :: (w₂ ++ w)) from rfl]
      exact h1.trans (by rw [h3]; exact h2.symm)
    · -- permutation, bottom placement
      have hswap : (w₁ ++ t :: s :: (w₂ ++ w)).Perm (w₁ ++ s :: t :: (w₂ ++ w)) :=
        List.Perm.append_left w₁ (List.Perm.swap s t (w₂ ++ w))
      have h1 : (w₁ ++ s :: (t :: (w₂ ++ w))).Perm (s :: (w₁ ++ t :: (w₂ ++ w))) :=
        List.perm_middle
      have h2 : ((w₁ ++ t :: w₂) ++ s :: w).Perm (s :: ((w₁ ++ t :: w₂) ++ w)) :=
        List.perm_middle
      have h3 : w₁ ++ t :: (w₂ ++ w) = (w₁ ++ t :: w₂) ++ w := by simp
      exact hswap.trans (h1.trans (by rw [h3]; exact h2.symm))
  · -- target after source: w = v₁ ++ t :: v₂
    obtain ⟨v₁, v₂, rfl⟩ := List.append_of_mem htw
    obtain ⟨hp_s, hq_s, -⟩ := nodup_id_decomp p s (v₁ ++ t :: v₂) hnd
    have hassoc : p ++ s :: (v₁ ++ t :: v₂) = (p ++ s :: v₁) ++ t :: v₂ := by simp
    obtain ⟨hpre_t, hv2_t, -⟩ :=
      nodup_id_decomp (p ++ s :: v₁) t v₂ (by rw [← hassoc]; exact hnd)
    have hsi : (p ++ s :: (v₁ ++ t :: v₂)).findIdx (fun st => st.id = s.id) = p.length :=
      findIdx_append_cons p s _ s.id hp_s rfl
    have hti : (p ++ s :: (v₁ ++ t :: v₂)).findIdx (fun st => st.id = t.id)
        = (p ++ s :: v₁).length := by
      rw [hassoc]
      exact findIdx_append_cons _ t v₂ t.id hpre_t rfl
    have hlen : (p ++ s :: v₁).length = p.length + v₁.length + 1 := by
      simp [Nat.add_comm, Nat.add_assoc, Nat.add_left_comm]
    have hgt : (p ++ s :: (v₁ ++ t :: v₂)).findIdx (fun st => st.id = t.id) >
        (p ++ s :: (v₁ ++ t :: v₂)).findIdx (fun st => st.id = s.id) := by
      rw [hsi, hti, hlen]
      omega
    have hadj : (if (p ++ s :: (v₁ ++ t :: v₂)).findIdx (fun st => st.id = t.id) >
          (p ++ s :: (v₁ ++ t :: v₂)).findIdx (fun st => st.id = s.id)
        then (p ++ s :: (v₁ ++ t :: v₂)).findIdx (fun st => st.id = t.id) - 1
        else (p ++ s :: (v₁ ++ t :: v₂)).findIdx (fun st => st.id = t.id))
        = (p ++ v₁).length + 0 := by
      rw [if_pos hgt, hti, hlen]
      simp
    have herase : (p ++ s :: (v₁ ++ t :: v₂)).eraseIdx
        ((p ++ s :: (v₁ ++ t :: v₂)).findIdx fun st => st.id = s.id)
        = (p ++ v₁) ++ (t :: v₂) := by
      rw [hsi, eraseIdx_append_cons]
      simp
    refine ⟨p ++ v₁, v₂, ?_, ?_, ?_, ?_, ?_, ?_⟩
    · rw [hsi]
      exact getElem?_append_cons p s _
    · rw [herase, hadj, insertIdx_append_shift]
      simp
    · rw [herase, hadj, insertIdx_append_shift (p ++ v₁) (t :: v₂) (0 + 1) s]
      rw [List.insertIdx_succ_cons]
      simp
    · have hfp : p.filter (fun st => st.id ≠ s.id ∧ st.id ≠ t.id) = p :=
        List.filter_eq_self.mpr fun x hx => by
          simp [hp_s x hx, hpre_t x (List.mem_append_left _ hx)]
      have hfv1 : v₁.filter (fun st => st.id ≠ s.id ∧ st.id ≠ t.id) = v₁ :=
        List.filter_eq_self.mpr fun x hx => by
          simp [hq_s x (List.mem_append_left _ hx),
            hpre_t x (List.mem_append_right _ (List.mem_cons_of_mem _ hx))]
      have hfv2 : v₂.filter (fun st => st.id ≠ s.id ∧ st.id ≠ t.id) = v₂ :=
        List.filter_eq_self.mpr fun x hx => by
          simp [hq_s x (List.mem_append_right _ (List.mem_cons_of_mem _ hx)), hv2_t x hx]
      simp only [List.filter_append, List.filter_cons, hfp, hfv1, hfv2]
      simp [hne]
    · have h1 : ((p ++ v₁) ++ s :: (t :: v₂)).Perm (s :: ((p ++ v₁) ++ t :: v₂)) :=
        List.perm_middle
      have h2 : (p ++ s :: (v₁ ++ t :: v₂)).Perm (s :: (p ++ (v₁ ++ t :: v₂))) :=
        List.perm_middle
      have h3 : (p ++ v₁) ++ t :: v₂ = p ++ (v₁ ++ t :: v₂) := by simp
      exact h1.trans (by rw [h3]; exact h2.symm)
    · have hswap : ((p ++ v₁) ++ t :: s :: v₂).Perm ((p ++ v₁) ++ s :: t :: v₂) :=
        List.Perm.append_left (p ++ v₁) (List.Perm.swap s t v₂)
      have h1 : ((p ++ v₁) ++ s :: (t :: v₂)).Perm (s :: ((p ++ v₁) ++ t :: v₂)) :=
        List.perm_middle
      have h2 : (p ++ s :: (v₁ ++ t :: v₂)).Perm (s :: (p ++ (v₁ ++ t :: v₂))) :=
        List.perm_middle
      have h3 : (p ++ v₁) ++ t :: v₂ = p ++ (v₁ ++ t :: v₂) := by simp
      exact hswap.trans (h1.trans (by rw [h3]; exact h2.symm))

/-- C6: dropping subtask A onto subtask B within the same parent places A
immediately before B (`top`) or immediately after B (`bottom`, also the
default when no drag-over position is recorded), keeps the multiset of
subtasks and the relative order of all the others, and leaves every other
task untouched; a cross-task drop or a self-drop is a no-op. -/
theorem C6_subtask_drop (tasks : List Task) (sourceTaskId targetTaskId : String)
    (sourceSubtask targetSubtask : Subtask) (pos? : Option DropPosition) :
    (sourceTaskId ≠ targetTaskId →
      handleSubtaskDrop tasks (some (sourceTaskId, sourceSubtask)) targetTaskId targetSubtask pos?
        = tasks) ∧
    (sourceSubtask.id = targetSubtask.id →
      handleSubtaskDrop tasks (some (sourceTaskId, sourceSubtask)) targetTaskId targetSubtask pos?
        = tasks) ∧
    (∀ parent sts, sourceTaskId = targetTaskId →
      (tasks.map Task.id).Nodup → parent ∈ tasks → parent.id = targetTaskId →
      parent.subtasks = some sts → (sts.map Subtask.id).Nodup →
      sourceSubtask ∈ sts → targetSubtask ∈ sts → sourceSubtask.id ≠ targetSubtask.id →
      ∃ u v sts',
        (pos? = some .top → sts' = u ++ sourceSubtask :: targetSubtask :: v) ∧
        (pos? ≠ some .top → sts' = u ++ targetSubtask :: sourceSubtask :: v) ∧
        u ++ v = sts.filter (fun st => st.id ≠ sourceSubtask.id ∧ st.id ≠ targetSubtask.id) ∧
        sts'.Perm sts ∧
        (∀ (i : Nat) (x : Task), tasks[i]? = some x →
          (x.id ≠ targetTaskId →
            (handleSubtaskDrop tasks (some (sourceTaskId, sourceSubtask)) targetTaskId
              targetSubtask pos?)[i]? = some x) ∧
          (x.id = targetTaskId →
            (handleSubtaskDrop tasks (some (sourceTaskId, sourceSubtask)) targetTaskId
              targetSubtask pos?)[i]? = some { parent with subtasks := some sts' }))) := by
  refine ⟨?_, ?_, ?_⟩
  · intro h
    simp [handleSubtaskDrop, h]
  · intro h
    simp [handleSubtaskDrop, h]
  · intro parent sts hsame hids hpmem hpid hpsub hstnd hsmem htmem hne
    cases hsame
    have hfind : tasks.find? (fun x => x.id = sourceTaskId) = some parent := by
      rcases h0 : tasks.find? (fun x => x.id = sourceTaskId) with _ | f0
      · have := List.find?_eq_none.mp h0 parent hpmem
        simp [hpid] at this
      · have hmem0 := List.mem_of_find?_eq_some h0
        have hid0 : f0.id = sourceTaskId := by simpa using List.find?_some h0
        rw [h0]
        exact congrArg some (List.inj_on_of_nodup_map hids hmem0 hpmem (by rw [hid0, hpid]))
    obtain ⟨u, v, hget, htop, hbot, hfilter, hpermtop, hpermbot⟩ :=
      subtask_move sts sourceSubtask targetSubtask hstnd hsmem htmem hne
    have frame : ∀ (newSts : List Subtask),
        handleSubtaskDrop tasks (some (sourceTaskId, sourceSubtask)) sourceTaskId
          targetSubtask pos?
          = tasks.map (fun x => if x.id = sourceTaskId
              then { parent with subtasks := some newSts } else x) →
        ∀ (i : Nat) (x : Task), tasks[i]? = some x →
          (x.id ≠ sourceTaskId →
            (handleSubtaskDrop tasks (some (sourceTaskId, sourceSubtask)) sourceTaskId
              targetSubtask pos?)[i]? = some x) ∧
          (x.id = sourceTaskId →
            (handleSubtaskDrop tasks (some (sourceTaskId, sourceSubtask)) sourceTaskId
              targetSubtask pos?)[i]? = some { parent with subtasks := some newSts }) := by
      intro newSts hr i x hix
      rw [hr, List.getElem?_map, hix]
      constructor
      · intro hxne
        rw [Option.map_some', if_neg hxne]
      · intro hxeq
        rw [Option.map_some', if_pos hxeq]
    rcases pos? with _ | pos
    · -- no drag-over info: bottom behaviour
      have hr : handleSubtaskDrop tasks (some (sourceTaskId, sourceSubtask)) sourceTaskId
          targetSubtask none
          = tasks.map (fun x => if x.id = sourceTaskId
              then { parent with subtasks := some (u ++ targetSubtask :: sourceSubtask :: v) }
              else x) := by
        rw [← hbot]
        simp [handleSubtaskDrop, hfind, hpsub, hget, hne]
      exact ⟨u, v, u ++ targetSubtask :: sourceSubtask :: v,
        fun h => absurd h (by simp), fun _ => rfl, hfilter, hpermbot, frame _ hr⟩
    · cases pos
      · -- top
        have hr : handleSubtaskDrop tasks (some (sourceTaskId, sourceSubtask)) sourceTaskId
            targetSubtask (some .top)
            = tasks.map (fun x => if x.id = sourceTaskId
                then { parent with subtasks := some (u ++ sourceSubtask :: targetSubtask :: v) }
                else x) := by
          rw [← htop]
          simp [handleSubtaskDrop, hfind, hpsub, hget, hne]
        exact ⟨u, v, u ++ sourceSubtask :: targetSubtask :: v,
          fun _ => rfl, fun h => absurd rfl h, hfilter, hpermtop, frame _ hr⟩
      · -- bottom
        have hr : handleSubtaskDrop tasks (some (sourceTaskId, sourceSubtask)) sourceTaskId
            targetSubtask (some .bottom)
            = tasks.map (fun x => if x.id = sourceTaskId
                then { parent with subtasks := some (u ++ targetSubtask :: sourceSubtask :: v) }
                else x) := by
          rw [← hbot]
          simp [handleSubtaskDrop, hfind, hpsub, hget, hne]
        exact ⟨u, v, u ++ targetSubtask :: sourceSubtask :: v,
          fun h => absurd h (by simp), fun _ => rfl, hfilter, hpermbot, frame _ hr⟩

/-- Witness for C6: dropping the last subtask before the first one. -/
theorem C6_subtask_drop_witness :
    ∃ u v sts',
      (some DropPosition.top = some DropPosition.top →
        sts' = u ++ dropSrc6 :: dropTgt6 :: v) ∧
      (some DropPosition.top ≠ some DropPosition.top →
        sts' = u ++ dropTgt6 :: dropSrc6 :: v) ∧
      u ++ v = [dropTgt6, dropMid6, dropSrc6].filter
        (fun st => st.id ≠ dropSrc6.id ∧ st.id ≠ dropTgt6.id) ∧
      sts'.Perm [dropTgt6, dropMid6, dropSrc6] ∧
      (∀ (i : Nat) (x : Task), [dropParent6][i]? = some x →
        (x.id ≠ "t1" →
          (handleSubtaskDrop [dropParent6] (some ("t1", dropSrc6)) "t1" dropTgt6
            (some .top))[i]? = some x) ∧
        (x.id = "t1" →
          (handleSubtaskDrop [dropParent6] (some ("t1", dropSrc6)) "t1" dropTgt6
            (some .top))[i]? = some { dropParent6 with subtasks := some sts' })) :=
  (C6_subtask_drop [dropParent6] "t1" "t1" dropSrc6 dropTgt6 (some .top)).2.2 dropParent6
    [dropTgt6, dropMid6, dropSrc6] rfl (by decide) (List.mem_singleton.mpr rfl) rfl rfl
    (by decide) (by decide) (by decide) (by decide)

end Zenith
